import Mathlib

/-!
Shallow embedding of Pacmanninja/DyingLightModManager.

The repository has two Python source files:
  * `merge.py` — the console merge utility;
  * `modmanager.py` — the GUI mod manager with its own merge path.

Python text (`str`) is modeled as `List Char`; bytes (`bytes`) as
`List Nat` with every element below 256.  Dictionaries that the code
iterates in insertion order are modeled as association lists, with
lookup returning the first (and, by construction, only) binding.
Interactive prompts are modeled as explicit resolver functions, and every
resolver invocation is recorded in a `prompts` field so that "no conflict
was raised" is an observable statement.
-/

abbrev Line : Type := List Char
abbrev Key : Type := List Char
abbrev Source : Type := List Char

/-- Character list of a Lean string literal (used for concrete inputs). -/
def strL (s : String) : Line := s.data

/-- Python `str.strip` / regex `\s` whitespace set (ASCII fragment). -/
def isPySpace (c : Char) : Bool :=
  c == ' ' || c == '\t' || c == '\n' || c == '\r' || c == '\x0b' || c == '\x0c'

/-- Python `str.strip()`: drop whitespace from both ends. -/
def stripL (l : Line) : Line :=
  ((l.dropWhile isPySpace).reverse.dropWhile isPySpace).reverse

/-- Python `str.lower()` (ASCII fragment, which covers the paths involved). -/
def lowerL (l : Line) : Line := l.map Char.toLower

/-- Python `content.replace("\r\n", "\n")`: left-to-right, non-overlapping. -/
def replaceCRLF : Line → Line
  | '\r' :: '\n' :: rest => '\n' :: replaceCRLF rest
  | c :: rest => c :: replaceCRLF rest
  | [] => []

/-- Python `str.split("\n")`. -/
def splitNL : Line → List Line
  | [] => [[]]
  | c :: rest =>
    if c = '\n' then [] :: splitNL rest
    else
      match splitNL rest with
      | s :: ss => (c :: s) :: ss
      | [] => [[c]]

/-- Python `"\n".join(...)`. -/
def joinNL : List Line → Line
  | [] => []
  | [l] => l
  | l :: ls => l ++ '\n' :: joinNL ls

/-- First-match association lookup, i.e. Python `dict.get` (keys are unique
by construction wherever this is used). -/
def lookupA {α : Type} : List (List Char × α) → List Char → Option α
  | [], _ => none
  | (k', v) :: r, k => if k' = k then some v else lookupA r k

/-- Python `dict.__setitem__`: overwrite in place if the key is present
(keeping insertion order), otherwise append at the end. -/
def setAssoc {α : Type} : List (List Char × α) → List Char → α → List (List Char × α)
  | [], k, v => [(k, v)]
  | (k', v') :: r, k, v => if k' = k then (k, v) :: r else (k', v') :: setAssoc r k v

/-- Lines of a file content the way both mergers see them:
`content.replace("\r\n", "\n").split("\n")`. -/
def contentLines (content : Line) : List Line := splitNL (replaceCRLF content)

/-- Key→line map with first occurrence winning, shared shape of the
`original_map` / `mod_map` building loops in both files. -/
def buildLineMapWith (keyf : Line → Option Key) (content : Line) : List (Key × Line) :=
  (contentLines content).foldl
    (fun m l =>
      match keyf l with
      | some k => if (lookupA m k).isSome then m else m ++ [(k, l)]
      | none => m) []

def quoteC : Char := Char.ofNat 34

def backslashC : Char := Char.ofNat 92

def isWordChar (c : Char) : Bool := c.isAlphanum || c == '_'

/-- Python `str.endswith`. -/
def endsWithL (l suffix : Line) : Bool := suffix.isSuffixOf l

/-- `os.path.basename` on Windows (`ntpath`): the part after the last
forward or backward slash. -/
def basenameL (l : Line) : Line :=
  l.foldl (fun acc c => if c = '/' || c = backslashC then [] else acc ++ [c]) []

/-- Python `entry.replace("/", "\\")`. -/
def slashToBackslash (l : Line) : Line :=
  l.map (fun c => if c = '/' then backslashC else c)

def scrSuffix : Line := strL ".scr"

def slashSuffix : Line := strL "/"

namespace Merge

/-- `ScriptFile` from merge.py. -/
structure ScriptFile where
  full_path_in_pak : Line
  content : Line
  source_pak : Source
deriving Inhabited, DecidableEq

/-- `try_parse_key` from merge.py: on the stripped line, match the regex
`^(\w+)\s*\(\s*"([^"]+)"` and return `f"{fn}_{arg}"`.  The regex is
deterministic here (each starred class is disjoint from what follows),
so maximal munch is equivalent to the backtracking semantics. -/
def try_parse_key (l : Line) : Option Key :=
  let s := stripL l
  let fn := s.takeWhile isWordChar
  if fn = [] then none
  else
    match (s.dropWhile isWordChar).dropWhile isPySpace with
    | '(' :: r3 =>
      (match r3.dropWhile isPySpace with
       | c :: r5 =>
         if c = quoteC then
           let arg := r5.takeWhile (fun d => !(d == quoteC))
           match r5.dropWhile (fun d => !(d == quoteC)) with
           | d :: _ => if d = quoteC ∧ arg ≠ [] then some (fn ++ '_' :: arg) else none
           | [] => none
         else none
       | [] => none)
    | _ => none

def buildLineMap (content : Line) : List (Key × Line) := buildLineMapWith try_parse_key content

/-- One entry of `mod_maps` in `generate_merged_file_content`. -/
structure ModMap where
  source_pak : Source
  map : List (Key × Line)
deriving Inhabited, DecidableEq

def modMapsOf (mods : List ScriptFile) : List ModMap :=
  mods.map (fun m => ModMap.mk m.source_pak (buildLineMap m.content))

/-- The `actual_changes` list for one key: mods whose map has the key with a
(truthy) line different from the baseline's line for that key. -/
def actualChanges (origMap : List (Key × Line)) (modMaps : List ModMap) (k : Key) :
    List (Line × Source) :=
  modMaps.filterMap (fun mm =>
    match lookupA mm.map k with
    | some l => if l ≠ [] ∧ some l ≠ lookupA origMap k then some (l, mm.source_pak) else none
    | none => none)

/-- `distinct_changes.setdefault(line, []).append(src)` over one change. -/
def addDistinct : List (Line × List Source) → Line × Source → List (Line × List Source)
  | [], c => [(c.1, [c.2])]
  | (l, ss) :: r, c => if l = c.1 then (l, ss ++ [c.2]) :: r else (l, ss) :: addDistinct r c

def distinctChanges (changes : List (Line × Source)) : List (Line × List Source) :=
  changes.foldl addDistinct []

/-- Auto-resolution under a sticky preference: first distinct value whose
source set contains the preferred source, else the first distinct value. -/
def pickPreferred (p : Source) (dc : List (Line × List Source)) : Line :=
  match dc.find? (fun pr => decide (p ∈ pr.2)) with
  | some pr => pr.1
  | none => (dc.headD ([], [])).1

/-- The interactive prompt of merge.py, as a synchronous callback: it is
handed the key and the ordered distinct (line, sources) list and answers
with a 1-based choice plus the sticky flag (the trailing `y`).  The
input-validation loop in the source only ever lets a choice in
`1..len(lines_list)` escape, so the embedding indexes with that contract. -/
abbrev Resolver : Type := Key → List (Line × List Source) → Nat × Bool

/-- The mutable state of one `generate_merged_file_content` pass, plus the
`prompts` audit trail of resolver invocations (one entry per prompt). -/
structure MState where
  resolutions : List (Key × Line)
  preferred_mod_source : Option Source
  auto_resolved_count : Nat
  prompts : List Key
deriving Inhabited, DecidableEq

def initState : MState := MState.mk [] none 0 []

/-- One iteration of the `for original_line in original_lines` loop in
`generate_merged_file_content` (merge.py lines 250–310). -/
def processLine (resolver : Resolver) (origMap : List (Key × Line)) (modMaps : List ModMap)
    (st : MState) (l : Line) : MState × Line :=
  match try_parse_key l with
  | none => (st, l)
  | some k =>
    match lookupA st.resolutions k with
    | some r => (st, r)
    | none =>
      let ac := actualChanges origMap modMaps k
      if ac.length = 0 then (st, l)
      else if ac.length = 1 then
        let cl := (ac.headD ([], [])).1
        (MState.mk (st.resolutions ++ [(k, cl)]) st.preferred_mod_source
          st.auto_resolved_count st.prompts, cl)
      else
        let dc := distinctChanges ac
        if dc.length = 1 then
          let cl := (dc.headD ([], [])).1
          (MState.mk (st.resolutions ++ [(k, cl)]) st.preferred_mod_source
            st.auto_resolved_count st.prompts, cl)
        else
          match st.preferred_mod_source with
          | some p =>
            let cl := pickPreferred p dc
            (MState.mk (st.resolutions ++ [(k, cl)]) (some p)
              (st.auto_resolved_count + 1) st.prompts, cl)
          | none =>
            let cb := resolver k dc
            let chosenPair := dc.getD (cb.1 - 1) ([], [])
            let cs := chosenPair.2.headD []
            let pref : Option Source :=
              if cb.2 ∧ cs ≠ [] then some cs else st.preferred_mod_source
            (MState.mk (st.resolutions ++ [(k, chosenPair.1)]) pref
              st.auto_resolved_count (st.prompts ++ [k]), chosenPair.1)

def mergeLines (resolver : Resolver) (origMap : List (Key × Line)) (modMaps : List ModMap) :
    MState → List Line → MState × List Line
  | st, [] => (st, [])
  | st, l :: ls =>
    let pr := processLine resolver origMap modMaps st l
    let rest := mergeLines resolver origMap modMaps pr.1 ls
    (rest.1, pr.2 :: rest.2)

def mergeFileRun (resolver : Resolver) (original : ScriptFile) (mods : List ScriptFile) :
    MState × List Line :=
  mergeLines resolver (buildLineMap original.content) (modMapsOf mods) initState
    (contentLines original.content)

/-- `generate_merged_file_content` from merge.py (lines 228–315). -/
def generate_merged_file_content (resolver : Resolver) (original : ScriptFile)
    (mods : List ScriptFile) : Line :=
  joinNL (mergeFileRun resolver original mods).2

def mergeOutputs (resolver : Resolver) (original : ScriptFile) (mods : List ScriptFile) :
    List Line :=
  (mergeFileRun resolver original mods).2

def mergePrompts (resolver : Resolver) (original : ScriptFile) (mods : List ScriptFile) :
    List Key :=
  (mergeFileRun resolver original mods).1.prompts

/-- The per-path dispatch of `main` (merge.py lines 57–68): one mod → use it
verbatim; no (case-insensitive) original → use the first mod; otherwise
merge.  The second component is the prompt trail of the chosen branch. -/
def cliFinalContent (resolver : Resolver) (original_scripts : List ScriptFile)
    (file_path : Line) (group : List ScriptFile) : Line × List Key :=
  if group.length = 1 then ((group.headD default).content, [])
  else
    match original_scripts.find?
        (fun f => decide (lowerL f.full_path_in_pak = lowerL file_path)) with
    | none => ((group.headD default).content, [])
    | some o => (generate_merged_file_content resolver o group, mergePrompts resolver o group)

/-- The whole `for file_path, mods_touching_this_file in mod_file_groups`
loop: each group is processed by `cliFinalContent`, with no state threaded
between files (merge.py keeps `preferred_mod_source` local to
`generate_merged_file_content`). -/
def cliMergeRun (resolver : Resolver) (original_scripts : List ScriptFile)
    (groups : List (Line × List ScriptFile)) : List (Line × (Line × List Key)) :=
  groups.map (fun g => (g.1, cliFinalContent resolver original_scripts g.1 g.2))

/-- The output-number computation of `main` (merge.py lines 86–99): one more
than the highest existing `dataN` number, floored at 3. -/
def nextPakNum (nums : List Nat) : Nat :=
  let n := nums.foldl (fun next num => if next ≤ num then num + 1 else next) 0
  if n < 3 then 3 else n

/-- `get_game_file_structure` from merge.py (lines 179–190): basename →
canonical path (with backslashes), first occurrence winning
case-insensitively; duplicates are only logged. -/
def get_game_file_structure (entries : List Line) : List (Line × Line) :=
  entries.foldl
    (fun st entry =>
      if endsWithL entry scrSuffix && !(endsWithL entry slashSuffix) then
        let file_name := basenameL entry
        let full_path := slashToBackslash entry
        if (st.find? (fun p => decide (lowerL p.1 = lowerL file_name))).isSome then st
        else st ++ [(file_name, full_path)]
      else st) []

/-- Result of `read_scripts_from_single_pak_for_fixing` (merge.py lines
192–217): the collected `(file_name, correct_path, content)` tuples, the
unknown files, and the value the local `needs_fixing_flag` variable holds
when the function returns.  Python passes the flag by value, so this local
value is invisible to the caller. -/
structure FixReadResult where
  mod_scripts : List (Line × Line × List Nat)
  unknown_files : List Line
  needs_fixing_flag : Bool
deriving Inhabited, DecidableEq

def read_scripts_from_single_pak_for_fixing (entries : List (Line × List Nat))
    (needs_fixing_flag : Bool) (file_structure : List (Line × Line)) : FixReadResult :=
  entries.foldl
    (fun acc e =>
      if endsWithL e.1 scrSuffix && !(endsWithL e.1 slashSuffix) then
        let file_name := basenameL e.1
        let mod_path := slashToBackslash e.1
        match lookupA file_structure file_name with
        | some correct_path =>
          let flag := if lowerL mod_path ≠ lowerL correct_path then true
                      else acc.needs_fixing_flag
          FixReadResult.mk (acc.mod_scripts ++ [(file_name, correct_path, e.2)])
            acc.unknown_files flag
        | none =>
          FixReadResult.mk acc.mod_scripts (acc.unknown_files ++ [mod_path])
            acc.needs_fixing_flag
      else acc)
    (FixReadResult.mk [] [] needs_fixing_flag)

/-- What `fix_mod_structures` decides about one mod. -/
inductive ModOutcome
  | usedUnchanged
  | fixedCopy
  | keptOriginalStructure
  | excluded
deriving DecidableEq

/-- One iteration of the mod loop of `fix_mod_structures` (merge.py lines
124–172).  `keep_choice` is the user's answer to the unknown-files prompt
(`true` = option 1, keep the original structure).  The caller's
`needs_fixing` is initialized to `False` and — because Python passes the
boolean by value — is never updated by
`read_scripts_from_single_pak_for_fixing`, so the `if needs_fixing` test
reads the unchanged initial value. -/
def fix_one_mod (file_structure : List (Line × Line)) (entries : List (Line × List Nat))
    (keep_choice : Bool) : ModOutcome :=
  let needs_fixing := false
  let res := read_scripts_from_single_pak_for_fixing entries needs_fixing file_structure
  if res.unknown_files ≠ [] then
    (if keep_choice then ModOutcome.keptOriginalStructure else ModOutcome.excluded)
  else if needs_fixing then ModOutcome.fixedCopy
  else ModOutcome.usedUnchanged

end Merge

/-! UTF-8 decoding, modeling Python's `bytes.decode`.  `utf8Decode?` is the
strict decoder (None on any malformed input: overlong forms, surrogates,
out-of-range leads, truncated sequences); `lossyUtf8Decode` models
`errors='replace'`, emitting U+FFFD for each maximal invalid subpart;
`latin1Decode?` models strict `latin-1`, which accepts every byte. -/

def utf8Cont (b : Nat) : Bool := decide (0x80 ≤ b) && decide (b ≤ 0xBF)

/-- First-continuation constraint of a 3-byte sequence (excludes overlong
forms for lead E0 and surrogates for lead ED). -/
def utf8Cont3First (lead b2 : Nat) : Bool :=
  (lead == 0xE0 && decide (0xA0 ≤ b2) && decide (b2 ≤ 0xBF))
  || (decide (0xE1 ≤ lead) && decide (lead ≤ 0xEC) && utf8Cont b2)
  || (lead == 0xED && decide (0x80 ≤ b2) && decide (b2 ≤ 0x9F))
  || (decide (0xEE ≤ lead) && decide (lead ≤ 0xEF) && utf8Cont b2)

/-- First-continuation constraint of a 4-byte sequence (excludes overlong
forms for lead F0 and code points above U+10FFFF for lead F4). -/
def utf8Cont4First (lead b2 : Nat) : Bool :=
  (lead == 0xF0 && decide (0x90 ≤ b2) && decide (b2 ≤ 0xBF))
  || (decide (0xF1 ≤ lead) && decide (lead ≤ 0xF3) && utf8Cont b2)
  || (lead == 0xF4 && decide (0x80 ≤ b2) && decide (b2 ≤ 0x8F))

def utf8Decode? : List Nat → Option (List Char)
  | [] => some []
  | b :: rest =>
    if b ≤ 0x7F then (utf8Decode? rest).map (Char.ofNat b :: ·)
    else if decide (0xC2 ≤ b) && decide (b ≤ 0xDF) then
      match rest with
      | b2 :: r =>
        if utf8Cont b2 then
          (utf8Decode? r).map (Char.ofNat ((b - 0xC0) * 0x40 + (b2 - 0x80)) :: ·)
        else none
      | [] => none
    else if decide (0xE0 ≤ b) && decide (b ≤ 0xEF) then
      match rest with
      | b2 :: b3 :: r =>
        if utf8Cont3First b b2 && utf8Cont b3 then
          (utf8Decode? r).map
            (Char.ofNat ((b - 0xE0) * 0x1000 + (b2 - 0x80) * 0x40 + (b3 - 0x80)) :: ·)
        else none
      | _ => none
    else if decide (0xF0 ≤ b) && decide (b ≤ 0xF4) then
      match rest with
      | b2 :: b3 :: b4 :: r =>
        if utf8Cont4First b b2 && utf8Cont b3 && utf8Cont b4 then
          (utf8Decode? r).map
            (Char.ofNat ((b - 0xF0) * 0x40000 + (b2 - 0x80) * 0x1000
              + (b3 - 0x80) * 0x40 + (b4 - 0x80)) :: ·)
        else none
      | _ => none
    else none

def replacementChar : Char := Char.ofNat 0xFFFD

def lossyUtf8Decode : List Nat → List Char
  | [] => []
  | b :: rest =>
    if b ≤ 0x7F then Char.ofNat b :: lossyUtf8Decode rest
    else if decide (0xC2 ≤ b) && decide (b ≤ 0xDF) then
      match rest with
      | b2 :: r =>
        if utf8Cont b2 then
          Char.ofNat ((b - 0xC0) * 0x40 + (b2 - 0x80)) :: lossyUtf8Decode r
        else replacementChar :: lossyUtf8Decode (b2 :: r)
      | [] => [replacementChar]
    else if decide (0xE0 ≤ b) && decide (b ≤ 0xEF) then
      match rest with
      | b2 :: rest2 =>
        if utf8Cont3First b b2 then
          match rest2 with
          | b3 :: r =>
            if utf8Cont b3 then
              Char.ofNat ((b - 0xE0) * 0x1000 + (b2 - 0x80) * 0x40 + (b3 - 0x80))
                :: lossyUtf8Decode r
            else replacementChar :: lossyUtf8Decode (b3 :: r)
          | [] => [replacementChar]
        else replacementChar :: lossyUtf8Decode (b2 :: rest2)
      | [] => [replacementChar]
    else if decide (0xF0 ≤ b) && decide (b ≤ 0xF4) then
      match rest with
      | b2 :: rest2 =>
        if utf8Cont4First b b2 then
          match rest2 with
          | b3 :: rest3 =>
            if utf8Cont b3 then
              match rest3 with
              | b4 :: r =>
                if utf8Cont b4 then
                  Char.ofNat ((b - 0xF0) * 0x40000 + (b2 - 0x80) * 0x1000
                    + (b3 - 0x80) * 0x40 + (b4 - 0x80)) :: lossyUtf8Decode r
                else replacementChar :: lossyUtf8Decode (b4 :: r)
              | [] => [replacementChar]
            else replacementChar :: lossyUtf8Decode (b3 :: rest3)
          | [] => [replacementChar]
        else replacementChar :: lossyUtf8Decode (b2 :: rest2)
      | [] => [replacementChar]
    else replacementChar :: lossyUtf8Decode rest
termination_by l => l.length
decreasing_by all_goals (simp only [List.length_cons] at *; omega)

/-- Strict `latin-1` decode: total on genuine bytes (each byte maps to the
code point of the same value), so its failure branch is unreachable. -/
def latin1Decode? (data : List Nat) : Option (List Char) :=
  if data.all (fun b => decide (b < 256)) then some (data.map Char.ofNat) else none

namespace Merge

/-- The decode chain inside `read_scripts_from_single_pak` (merge.py lines
350–357): utf-8, then latin1, then lossy utf-8 on the same bytes. -/
def read_scr_content (data : List Nat) : List Char :=
  match utf8Decode? data with
  | some s => s
  | none =>
    match latin1Decode? data with
    | some s => s
    | none => lossyUtf8Decode data

end Merge

namespace ModManager

/-- `ScriptFile` from modmanager.py. -/
structure ScriptFile where
  rel_path : Line
  content : Line
  source : Source
deriving Inhabited, DecidableEq

/-- `try_parse_key_local` from `merge_scripts` (modmanager.py lines
384–394): skip blank and `#` comment lines, split the stripped line on the
first whitespace run, reject an all-digit first token, and combine the
first token with the first token of the remainder. -/
def try_parse_key_local (l : Line) : Option Key :=
  let s := stripL l
  match s with
  | [] => none
  | c :: _ =>
    if c = '#' then none
    else
      let lhs := s.takeWhile (fun d => !(isPySpace d))
      let rest := (s.dropWhile (fun d => !(isPySpace d))).dropWhile isPySpace
      if rest = [] then none
      else if !(lhs == []) && lhs.all Char.isDigit then none
      else some (lhs ++ '_' :: rest.takeWhile (fun d => !(isPySpace d)))

/-- The conflict dialog `ask_user_to_resolve_conflict` as a callback:
given the `[(original line, original source), (mod line, mod source)]`
options it returns the chosen line and, when the "apply to rest of file"
box is ticked, the chosen source. -/
abbrev AskUser : Type := List (Line × Source) → Line × Option Source

/-- The state that `merge_scripts` threads through its loops, plus the
`prompts` audit trail of `ask_user` invocations. -/
structure MergeState where
  original_map : List (Key × Line)
  preferred_source_for_file : Option Source
  prompts : List Key
deriving Inhabited

/-- One iteration of the inner `for line in mod.content...` loop of
`merge_scripts` (modmanager.py lines 404–420). -/
def processModLine (ask : AskUser) (orig_source mod_source : Source) (st : MergeState)
    (l : Line) : MergeState :=
  match try_parse_key_local l with
  | none => st
  | some k =>
    match lookupA st.original_map k with
    | some cur =>
      if cur ≠ l then
        if st.preferred_source_for_file = some orig_source then st
        else if st.preferred_source_for_file = some mod_source then
          MergeState.mk (setAssoc st.original_map k l) st.preferred_source_for_file st.prompts
        else
          let cb := ask [(cur, orig_source), (l, mod_source)]
          let pref := match cb.2 with
            | some s => if s ≠ [] then some s else st.preferred_source_for_file
            | none => st.preferred_source_for_file
          MergeState.mk (setAssoc st.original_map k cb.1) pref (st.prompts ++ [k])
      else MergeState.mk (setAssoc st.original_map k l) st.preferred_source_for_file st.prompts
    | none =>
      MergeState.mk (setAssoc st.original_map k l) st.preferred_source_for_file st.prompts

/-- The full state after `merge_scripts` has processed all mods
(modmanager.py lines 377–422); the sticky preference starts at `None` for
every call, i.e. for every file. -/
def merge_scripts_run (ask : AskUser) (original : ScriptFile) (mods : List ScriptFile) :
    MergeState :=
  mods.foldl
    (fun st mod =>
      (contentLines mod.content).foldl (processModLine ask original.source mod.source) st)
    (MergeState.mk (buildLineMapWith try_parse_key_local original.content) none [])

/-- `merge_scripts` output: the map's values joined, in insertion order. -/
def merge_scripts (ask : AskUser) (original : ScriptFile) (mods : List ScriptFile) : Line :=
  joinNL ((merge_scripts_run ask original mods).original_map.map Prod.snd)

/-- The `originals` dict of `run_merge` (modmanager.py lines 674–675):
keyed by exact `rel_path`, later duplicates overwriting earlier ones. -/
def buildOriginals (scripts : List ScriptFile) : List (Line × ScriptFile) :=
  scripts.foldl (fun m s => setAssoc m s.rel_path s) []

/-- The per-path dispatch of `run_merge` (modmanager.py lines 682–694):
paths present in the baseline are merged with `merge_scripts`; paths absent
from the baseline take the last-listed contributor's content verbatim.  The
second component is the prompt trail of the chosen branch. -/
def runMergeFileContent (ask : AskUser) (originals : List (Line × ScriptFile))
    (rel_path : Line) (mods : List ScriptFile) : Line × List Key :=
  match lookupA originals rel_path with
  | some o => (merge_scripts ask o mods, (merge_scripts_run ask o mods).prompts)
  | none => ((mods.getLastD default).content, [])

def nextFreeAux (taken : List Nat) : Nat → Nat → Nat
  | 0, i => i
  | fuel + 1, i => if i ∈ taken then nextFreeAux taken fuel (i + 1) else i

/-- `next_data_name` from modmanager.py (lines 114–120): the smallest `i`
(from 0) such that `data{i}.pak` does not exist.  `taken` is the set of
numbers whose file exists; the Python `while True` loop always terminates
because only finitely many files exist, which the fuel bound mirrors
(among `0..taken.length` some number is always free). -/
def next_data_name (taken : List Nat) : Nat := nextFreeAux taken (taken.length + 1) 0

/-- A read-once byte stream, as returned by `zipfile`'s `open`:  `read()`
returns everything from the current position and leaves the position at the
end, so a second `read()` returns `b""`. -/
structure ByteStream where
  data : List Nat
  pos : Nat

def readAll (s : ByteStream) : List Nat × ByteStream :=
  (s.data.drop s.pos, ByteStream.mk s.data s.data.length)

/-- The decode logic of `read_scripts_from_single_pak` (modmanager.py lines
184–188): `f.read().decode("utf-8")`, and on `UnicodeDecodeError` a second
`f.read().decode("utf-8", errors="replace")` — on the same, now exhausted,
stream. -/
def read_scr_entry_content (s : ByteStream) : List Char :=
  let r1 := readAll s
  match utf8Decode? r1.1 with
  | some c => c
  | none => lossyUtf8Decode (readAll r1.2).1

end ModManager

/-! Packaging traces.  The final packaging steps of both variants are IO;
they are embedded as the sequence of file-system operations the code
performs, each tagged with the storage area it touches. -/

inductive Loc
  | scratch
  | sourceDir
deriving DecidableEq

inductive FSOp
  | writeTree (loc : Loc)
  | removeFile (loc : Loc)
  | createArchive (loc : Loc)
  | renameWithin (loc : Loc)
  | renameAcross (src dst : Loc)
  | copyAcross (src dst : Loc)
  | removeTree (loc : Loc)
deriving DecidableEq

/-- merge.py lines 74–113: clear and fill the staging area (scratch), unlink
a pre-existing target, `shutil.make_archive` with the archive path inside
the game's source directory, rename `.zip` → `.pak` within the source
directory, remove staging. -/
def cliPackagingOps : List FSOp :=
  [FSOp.removeTree Loc.scratch, FSOp.writeTree Loc.scratch, FSOp.removeFile Loc.sourceDir,
   FSOp.createArchive Loc.sourceDir, FSOp.renameWithin Loc.sourceDir,
   FSOp.removeTree Loc.scratch]

/-- modmanager.py `run_merge` lines 679–713: build `merged.zip` inside the
temporary staging root (scratch), `shutil.copy2` it into the game's source
directory, remove the temporary roots. -/
def guiPackagingOps : List FSOp :=
  [FSOp.createArchive Loc.scratch, FSOp.copyAcross Loc.scratch Loc.sourceDir,
   FSOp.removeTree Loc.scratch, FSOp.removeTree Loc.scratch]

/-- The discipline the claim describes: all output creation happens in
scratch, and the only transfer into the source directory is a rename. -/
def scratchOnlyThenRename (op : FSOp) : Bool :=
  match op with
  | FSOp.writeTree l => decide (l = Loc.scratch)
  | FSOp.createArchive l => decide (l = Loc.scratch)
  | FSOp.renameWithin l => decide (l = Loc.scratch)
  | FSOp.renameAcross _ _ => true
  | FSOp.copyAcross _ dst => decide (dst ≠ Loc.sourceDir)
  | FSOp.removeFile _ => true
  | FSOp.removeTree _ => true

def promotesByRenameFromScratch (ops : List FSOp) : Bool := ops.all scratchOnlyThenRename

def isRenameIntoSource (op : FSOp) : Bool :=
  match op with
  | FSOp.renameAcross _ Loc.sourceDir => true
  | _ => false

/-! Concrete fixtures used to instantiate the theorems below. -/

def resolverFirst : Merge.Resolver := fun _ _ => (1, false)

def askKeepOriginal : ModManager.AskUser := fun opts => ((opts.headD ([], [])).1, none)

/-- A user who picks the mod's line and ticks "apply to rest of file". -/
def askPickModSticky : ModManager.AskUser :=
  fun opts => ((opts.getLastD ([], [])).1, some (opts.getLastD ([], [])).2)

def c1structure : List (Line × Line) := Merge.get_game_file_structure [strL "data/scripts/a.scr"]

def c1entries : List (Line × List Nat) := [(strL "scripts/a.scr", [])]

def c2orig : ModManager.ScriptFile :=
  ModManager.ScriptFile.mk (strL "f.scr") (strL "a 1") (strL "data0.pak")

def c2mod : ModManager.ScriptFile :=
  ModManager.ScriptFile.mk (strL "f.scr") (strL "a 2") (strL "m.pak")

def c2cliMod : Merge.ScriptFile :=
  Merge.ScriptFile.mk (strL "q.scr") (strL "solo") (strL "solo.pak")

def c3orig : ModManager.ScriptFile :=
  ModManager.ScriptFile.mk (strL "f.scr") (strL "a 1 base") (strL "data0.pak")

def c3modA : ModManager.ScriptFile :=
  ModManager.ScriptFile.mk (strL "f.scr") (strL "a 1 alpha") (strL "A.pak")

def c3modB : ModManager.ScriptFile :=
  ModManager.ScriptFile.mk (strL "f.scr") (strL "a 1 beta") (strL "B.pak")

def c3mm : List Merge.ModMap :=
  [Merge.ModMap.mk (strL "m1.pak") [(strL "Set_k", strL "one")],
   Merge.ModMap.mk (strL "m2.pak") [(strL "Set_k", strL "two")]]

def c3st : Merge.MState := Merge.MState.mk [] (some (strL "m2.pak")) 0 []

def c4orig : Merge.ScriptFile :=
  Merge.ScriptFile.mk (strL "f.scr") (strL "Set(\"k\") 0\nplain") (strL "data0.pak")

def c4modA : Merge.ScriptFile :=
  Merge.ScriptFile.mk (strL "f.scr") (strL "Set(\"k\") 9") (strL "A.pak")

def c4modB : Merge.ScriptFile :=
  Merge.ScriptFile.mk (strL "f.scr") (strL "Set(\"k\") 9") (strL "B.pak")

def c5modA : Merge.ScriptFile :=
  Merge.ScriptFile.mk (strL "f.scr") (strL "Set(\"k\") 0") (strL "A.pak")

def c5modB : Merge.ScriptFile :=
  Merge.ScriptFile.mk (strL "f.scr") (strL "noise") (strL "B.pak")

def c5gorig : ModManager.ScriptFile :=
  ModManager.ScriptFile.mk (strL "g.scr") (strL "a 1 x") (strL "data0.pak")

def c5gmod : ModManager.ScriptFile :=
  ModManager.ScriptFile.mk (strL "g.scr") (strL "a 1 x") (strL "M.pak")

def c6orig1 : Merge.ScriptFile :=
  Merge.ScriptFile.mk (strL "f.scr") (strL "a\r\r\nb") (strL "s.pak")

def c6orig2 : Merge.ScriptFile :=
  Merge.ScriptFile.mk (strL "f.scr") (strL "a\r\nb") (strL "s.pak")

def c10modA : Merge.ScriptFile :=
  Merge.ScriptFile.mk (strL "p.scr") (strL "A") (strL "A.pak")

def c10modC : Merge.ScriptFile :=
  Merge.ScriptFile.mk (strL "p.scr") (strL "C") (strL "C.pak")

def c10gmodA : ModManager.ScriptFile :=
  ModManager.ScriptFile.mk (strL "p.scr") (strL "GA") (strL "A.pak")

def c10gmodB : ModManager.ScriptFile :=
  ModManager.ScriptFile.mk (strL "p.scr") (strL "GB") (strL "B.pak")

/-! Helper lemmas. -/

theorem lookupA_append_ne {α : Type} (m : List (List Char × α)) (k k' : List Char) (x : α)
    (h : k' ≠ k) : lookupA (m ++ [(k', x)]) k = lookupA m k := by
  induction m with
  | nil => simp [lookupA, h]
  | cons p r ih =>
    obtain ⟨a, b⟩ := p
    simp only [List.cons_append, lookupA]
    split
    · rfl
    · exact ih

theorem lookupA_append_self {α : Type} (m : List (List Char × α)) (k : List Char) (x : α)
    (h : lookupA m k = none) : lookupA (m ++ [(k, x)]) k = some x := by
  induction m with
  | nil => simp [lookupA]
  | cons p r ih =>
    obtain ⟨a, b⟩ := p
    simp only [lookupA] at h
    simp only [List.cons_append, lookupA]
    split
    · rename_i hak
      rw [if_pos hak] at h
      exact absurd h (by simp)
    · rename_i hak
      rw [if_neg hak] at h
      exact ih h

theorem lookupA_setAssoc_self {α : Type} (m : List (List Char × α)) (k : List Char) (v : α) :
    lookupA (setAssoc m k v) k = some v := by
  induction m with
  | nil => simp [setAssoc, lookupA]
  | cons p r ih =>
    obtain ⟨a, b⟩ := p
    simp only [setAssoc]
    split
    · simp [lookupA]
    · rename_i hak
      simp only [lookupA]
      rw [if_neg hak]
      exact ih

theorem lookupA_setAssoc_ne {α : Type} (m : List (List Char × α)) (k k' : List Char) (v : α)
    (h : k' ≠ k) : lookupA (setAssoc m k' v) k = lookupA m k := by
  induction m with
  | nil => simp [setAssoc, lookupA, h]
  | cons p r ih =>
    obtain ⟨a, b⟩ := p
    simp only [setAssoc]
    split
    · rename_i hak
      subst hak
      simp [lookupA, h]
    · simp only [lookupA]
      split
      · rfl
      · exact ih

theorem foldl_inv {α β : Type} (f : α → β → α) (P : α → Prop) :
    ∀ (l : List β) (a : α), P a → (∀ x b, b ∈ l → P x → P (f x b)) → P (l.foldl f a) := by
  intro l
  induction l with
  | nil => intro a ha _; exact ha
  | cons b t ih =>
    intro a ha hstep
    exact ih (f a b) (hstep a b (by simp) ha)
      (fun x b' hb' hx => hstep x b' (by simp [hb']) hx)

theorem splitNL_ne_nil (l : Line) : splitNL l ≠ [] := by
  induction l with
  | nil => simp [splitNL]
  | cons c rest ih =>
    simp only [splitNL]
    split
    · simp
    · split <;> simp

theorem joinNL_splitNL (l : Line) : joinNL (splitNL l) = l := by
  induction l with
  | nil => rfl
  | cons c rest ih =>
    simp only [splitNL]
    by_cases hc : c = '\n'
    · rw [if_pos hc]
      cases hsp : splitNL rest with
      | nil => exact absurd hsp (splitNL_ne_nil rest)
      | cons s ss =>
        rw [hsp] at ih
        subst hc
        simp [joinNL, ih]
    · rw [if_neg hc]
      cases hsp : splitNL rest with
      | nil => exact absurd hsp (splitNL_ne_nil rest)
      | cons s ss =>
        rw [hsp] at ih
        cases ss with
        | nil => simpa [joinNL] using congrArg (c :: ·) ih
        | cons t ts =>
          simp only [joinNL] at ih ⊢
          simp [← ih]

theorem distinctChanges_foldl_all_eq (v : Line) :
    ∀ (acs : List (Line × Source)) (ss : List Source), (∀ pr ∈ acs, pr.1 = v) →
      List.foldl Merge.addDistinct [(v, ss)] acs = [(v, ss ++ acs.map Prod.snd)] := by
  intro acs
  induction acs with
  | nil => intro ss _; simp
  | cons c t ih =>
    intro ss hall
    have hc : c.1 = v := hall c (by simp)
    simp only [List.foldl_cons]
    have h1 : Merge.addDistinct [(v, ss)] c = [(v, ss ++ [c.2])] := by
      simp [Merge.addDistinct, hc.symm]
    rw [h1, ih (ss ++ [c.2]) (fun pr hpr => hall pr (by simp [hpr]))]
    simp

theorem distinctChanges_all_eq (v : Line) (acs : List (Line × Source)) (hne : acs ≠ [])
    (hall : ∀ pr ∈ acs, pr.1 = v) :
    Merge.distinctChanges acs = [(v, acs.map Prod.snd)] := by
  cases acs with
  | nil => exact absurd rfl hne
  | cons c t =>
    have hc : c.1 = v := hall c (by simp)
    simp only [Merge.distinctChanges, List.foldl_cons]
    have h1 : Merge.addDistinct [] c = [(v, [c.2])] := by
      simp [Merge.addDistinct, hc]
    rw [h1, distinctChanges_foldl_all_eq v t [c.2] (fun pr hpr => hall pr (by simp [hpr]))]
    simp

theorem c4_step (resolver : Merge.Resolver) (om : List (Key × Line)) (mm : List Merge.ModMap)
    (k : Key) (v : Line)
    (h2 : 2 ≤ (Merge.actualChanges om mm k).length)
    (hall : ∀ pr ∈ Merge.actualChanges om mm k, pr.1 = v)
    (st : Merge.MState) (l : Line)
    (hInv : (lookupA st.resolutions k = none ∨ lookupA st.resolutions k = some v)
            ∧ k ∉ st.prompts) :
    ((lookupA (Merge.processLine resolver om mm st l).1.resolutions k = none
      ∨ lookupA (Merge.processLine resolver om mm st l).1.resolutions k = some v)
     ∧ k ∉ (Merge.processLine resolver om mm st l).1.prompts)
    ∧ (Merge.try_parse_key l = some k → (Merge.processLine resolver om mm st l).2 = v) := by
  cases hk : Merge.try_parse_key l with
  | none =>
    simp only [Merge.processLine, hk]
    exact ⟨hInv, fun h => absurd h (by simp)⟩
  | some k' =>
    by_cases hkk : k' = k
    · subst hkk
      cases hres : lookupA st.resolutions k' with
      | some r =>
        have hrv : r = v := by
          rcases hInv.1 with h | h
          · rw [hres] at h; exact absurd h (by simp)
          · rw [hres] at h; exact Option.some.inj h
        simp only [Merge.processLine, hk, hres]
        exact ⟨⟨Or.inr (congrArg some hrv), hInv.2⟩, fun _ => hrv⟩
      | none =>
        have hne : Merge.actualChanges om mm k' ≠ [] := by
          intro h
          rw [h] at h2
          simp at h2
        have hdc : Merge.distinctChanges (Merge.actualChanges om mm k')
            = [(v, (Merge.actualChanges om mm k').map Prod.snd)] :=
          distinctChanges_all_eq v _ hne hall
        have hlen0 : ¬ (Merge.actualChanges om mm k').length = 0 := by omega
        have hlen1 : ¬ (Merge.actualChanges om mm k').length = 1 := by omega
        simp only [Merge.processLine, hk, hres, if_neg hlen0, if_neg hlen1, hdc]
        simp only [List.length_singleton, if_pos rfl, List.headD_cons]
        refine ⟨⟨?_, hInv.2⟩, fun _ => rfl⟩
        right
        exact lookupA_append_self st.resolutions k' v (by exact hres)
    · cases hres : lookupA st.resolutions k' with
      | some r =>
        simp only [Merge.processLine, hk, hres]
        refine ⟨?_, fun h => absurd (Option.some.inj h) hkk⟩
        exact hInv
      | none =>
        simp only [Merge.processLine, hk, hres]
        refine ⟨?_, fun h => absurd (Option.some.inj h) hkk⟩
        by_cases h0 : (Merge.actualChanges om mm k').length = 0
        · simp only [if_pos h0]
          exact hInv
        · by_cases h1 : (Merge.actualChanges om mm k').length = 1
          · simp only [if_neg h0, if_pos h1]
            exact ⟨by rw [lookupA_append_ne _ _ _ _ hkk]; exact hInv.1, hInv.2⟩
          · by_cases hd1 : (Merge.distinctChanges (Merge.actualChanges om mm k')).length = 1
            · simp only [if_neg h0, if_neg h1, if_pos hd1]
              exact ⟨by rw [lookupA_append_ne _ _ _ _ hkk]; exact hInv.1, hInv.2⟩
            · simp only [if_neg h0, if_neg h1, if_neg hd1]
              cases hpref : st.preferred_mod_source with
              | some p =>
                simp only
                exact ⟨by rw [lookupA_append_ne _ _ _ _ hkk]; exact hInv.1, hInv.2⟩
              | none =>
                simp only
                refine ⟨by rw [lookupA_append_ne _ _ _ _ hkk]; exact hInv.1, ?_⟩
                simp only [List.mem_append, List.mem_singleton]
                rintro (h | h)
                · exact hInv.2 h
                · exact hkk h.symm

theorem c4_lines (resolver : Merge.Resolver) (om : List (Key × Line)) (mm : List Merge.ModMap)
    (k : Key) (v : Line)
    (h2 : 2 ≤ (Merge.actualChanges om mm k).length)
    (hall : ∀ pr ∈ Merge.actualChanges om mm k, pr.1 = v) :
    ∀ (ls : List Line) (st : Merge.MState),
      (lookupA st.resolutions k = none ∨ lookupA st.resolutions k = some v) ∧ k ∉ st.prompts →
      ((lookupA (Merge.mergeLines resolver om mm st ls).1.resolutions k = none
        ∨ lookupA (Merge.mergeLines resolver om mm st ls).1.resolutions k = some v)
       ∧ k ∉ (Merge.mergeLines resolver om mm st ls).1.prompts)
      ∧ ∀ i li, ls.get? i = some li → Merge.try_parse_key li = some k →
          ((Merge.mergeLines resolver om mm st ls).2).get? i = some v := by
  intro ls
  induction ls with
  | nil =>
    intro st hInv
    exact ⟨hInv, fun i li hi _ => absurd hi (by simp)⟩
  | cons l t ih =>
    intro st hInv
    have hstep := c4_step resolver om mm k v h2 hall st l hInv
    have hrest := ih (Merge.processLine resolver om mm st l).1 hstep.1
    simp only [Merge.mergeLines]
    refine ⟨hrest.1, ?_⟩
    intro i li hi hkey
    cases i with
    | zero =>
      simp only [List.get?] at hi
      have : li = l := (Option.some.inj hi).symm
      subst this
      simpa using hstep.2 hkey
    | succ j =>
      simp only [List.get?] at hi
      simpa using hrest.2 j li hi hkey

/-- C4: when two or more mods propose actual changes for a key that all
converge on one identical value, `generate_merged_file_content` emits that
shared value at every baseline position carrying the key and never invokes
the conflict resolver for that key. -/
theorem claim_C4_convergent_no_conflict
    (resolver : Merge.Resolver) (original : Merge.ScriptFile) (mods : List Merge.ScriptFile)
    (k : Key) (v : Line)
    (h2 : 2 ≤ (Merge.actualChanges (Merge.buildLineMap original.content)
          (Merge.modMapsOf mods) k).length)
    (hall : ∀ pr ∈ Merge.actualChanges (Merge.buildLineMap original.content)
          (Merge.modMapsOf mods) k, pr.1 = v) :
    (∀ i li, (contentLines original.content).get? i = some li →
       Merge.try_parse_key li = some k →
       (Merge.mergeOutputs resolver original mods).get? i = some v)
    ∧ k ∉ Merge.mergePrompts resolver original mods := by
  have h := c4_lines resolver (Merge.buildLineMap original.content) (Merge.modMapsOf mods)
    k v h2 hall (contentLines original.content) Merge.initState
    ⟨Or.inl rfl, by simp [Merge.initState]⟩
  exact ⟨fun i li hi hk =>
      h.2 i li hi hk, h.1.2⟩

theorem claim_C4_witness :
    ((Merge.mergeOutputs resolverFirst c4orig [c4modA, c4modB]).get? 0
      = some (strL "Set(\"k\") 9"))
    ∧ strL "Set_k" ∉ Merge.mergePrompts resolverFirst c4orig [c4modA, c4modB] := by
  have h := claim_C4_convergent_no_conflict resolverFirst c4orig [c4modA, c4modB]
    (strL "Set_k") (strL "Set(\"k\") 9") (by decide) (by decide)
  exact ⟨h.1 0 (strL "Set(\"k\") 0") (by decide) (by decide), h.2⟩

theorem ac_nil_of_unchanged (om : List (Key × Line)) (mm : List Merge.ModMap) (k : Key)
    (h : ∀ mm' ∈ mm, lookupA mm'.map k = none ∨ lookupA mm'.map k = lookupA om k) :
    Merge.actualChanges om mm k = [] := by
  simp only [Merge.actualChanges]
  rw [List.filterMap_eq_nil]
  intro mm' hmm'
  rcases h mm' hmm' with h' | h'
  · simp [h']
  · cases hl : lookupA mm'.map k with
    | none => simp
    | some l =>
      rw [hl] at h'
      simp [← h']

theorem c5_step (resolver : Merge.Resolver) (om : List (Key × Line)) (mm : List Merge.ModMap)
    (k : Key) (hAC : Merge.actualChanges om mm k = [])
    (st : Merge.MState) (l : Line) (hInv : lookupA st.resolutions k = none) :
    lookupA (Merge.processLine resolver om mm st l).1.resolutions k = none
    ∧ (Merge.try_parse_key l = some k → (Merge.processLine resolver om mm st l).2 = l) := by
  cases hk : Merge.try_parse_key l with
  | none =>
    simp only [Merge.processLine, hk]
    exact ⟨hInv, by simp⟩
  | some k' =>
    by_cases hkk : k' = k
    · subst hkk
      have hlen : (Merge.actualChanges om mm k').length = 0 := by rw [hAC]; rfl
      have heq : Merge.processLine resolver om mm st l = (st, l) := by
        simp only [Merge.processLine, hk, hInv]
        rw [if_pos hlen]
      rw [heq]
      exact ⟨hInv, fun _ => rfl⟩
    · cases hres : lookupA st.resolutions k' with
      | some r =>
        have heq : Merge.processLine resolver om mm st l = (st, r) := by
          simp only [Merge.processLine, hk, hres]
        rw [heq]
        exact ⟨hInv, fun h => absurd (Option.some.inj h) hkk⟩
      | none =>
        simp only [Merge.processLine, hk, hres]
        refine ⟨?_, fun h => absurd (Option.some.inj h) hkk⟩
        by_cases h0 : (Merge.actualChanges om mm k').length = 0
        · simp only [if_pos h0]
          exact hInv
        · by_cases h1 : (Merge.actualChanges om mm k').length = 1
          · simp only [if_neg h0, if_pos h1]
            rw [lookupA_append_ne _ _ _ _ hkk]
            exact hInv
          · by_cases hd1 : (Merge.distinctChanges (Merge.actualChanges om mm k')).length = 1
            · simp only [if_neg h0, if_neg h1, if_pos hd1]
              rw [lookupA_append_ne _ _ _ _ hkk]
              exact hInv
            · simp only [if_neg h0, if_neg h1, if_neg hd1]
              cases hpref : st.preferred_mod_source with
              | some p =>
                simp only
                rw [lookupA_append_ne _ _ _ _ hkk]
                exact hInv
              | none =>
                simp only
                rw [lookupA_append_ne _ _ _ _ hkk]
                exact hInv

theorem c5_lines (resolver : Merge.Resolver) (om : List (Key × Line)) (mm : List Merge.ModMap)
    (k : Key) (hAC : Merge.actualChanges om mm k = []) :
    ∀ (ls : List Line) (st : Merge.MState), lookupA st.resolutions k = none →
      lookupA (Merge.mergeLines resolver om mm st ls).1.resolutions k = none
      ∧ ∀ i li, ls.get? i = some li → Merge.try_parse_key li = some k →
          ((Merge.mergeLines resolver om mm st ls).2).get? i = some li := by
  intro ls
  induction ls with
  | nil =>
    intro st hInv
    exact ⟨hInv, fun i li hi _ => absurd hi (by simp)⟩
  | cons l t ih =>
    intro st hInv
    have hstep := c5_step resolver om mm k hAC st l hInv
    have hrest := ih (Merge.processLine resolver om mm st l).1 hstep.1
    simp only [Merge.mergeLines]
    refine ⟨hrest.1, ?_⟩
    intro i li hi hkey
    cases i with
    | zero =>
      simp only [List.get?] at hi
      have : li = l := (Option.some.inj hi).symm
      subst this
      simpa using hstep.2 hkey
    | succ j =>
      simp only [List.get?] at hi
      simpa using hrest.2 j li hi hkey

theorem c5_gui_inv (ask : ModManager.AskUser) (original : ModManager.ScriptFile)
    (mods : List ModManager.ScriptFile) (k : Key)
    (hg : ∀ mod ∈ mods, ∀ li ∈ contentLines mod.content,
       ModManager.try_parse_key_local li = some k →
       lookupA (buildLineMapWith ModManager.try_parse_key_local original.content) k = some li) :
    lookupA (ModManager.merge_scripts_run ask original mods).original_map k
      = lookupA (buildLineMapWith ModManager.try_parse_key_local original.content) k := by
  unfold ModManager.merge_scripts_run
  refine foldl_inv _ (fun (st : ModManager.MergeState) => lookupA st.original_map k
    = lookupA (buildLineMapWith ModManager.try_parse_key_local original.content) k)
    mods _ rfl ?_
  intro st mod hmod hst
  refine foldl_inv _ (fun (st' : ModManager.MergeState) => lookupA st'.original_map k
    = lookupA (buildLineMapWith ModManager.try_parse_key_local original.content) k)
    (contentLines mod.content) st hst ?_
  intro x li hli hx
  cases hk : ModManager.try_parse_key_local li with
  | none => simpa [ModManager.processModLine, hk] using hx
  | some k' =>
    by_cases hkk : k' = k
    · subst hkk
      have hsome := hg mod hmod li hli hk
      have hcur : lookupA x.original_map k' = some li := by rw [hx, hsome]
      simp only [ModManager.processModLine, hk, hcur]
      rw [if_neg (by simp)]
      simp only
      rw [lookupA_setAssoc_self]
      exact hsome.symm
    · simp only [ModManager.processModLine, hk]
      cases hcur : lookupA x.original_map k' with
      | some cur =>
        simp only
        by_cases hne : cur ≠ li
        · rw [if_pos hne]
          split
          · exact hx
          · split
            · simp only
              rw [lookupA_setAssoc_ne _ _ _ _ hkk]
              exact hx
            · simp only
              rw [lookupA_setAssoc_ne _ _ _ _ hkk]
              exact hx
        · rw [if_neg hne]
          simp only
          rw [lookupA_setAssoc_ne _ _ _ _ hkk]
          exact hx
      | none =>
        simp only
        rw [lookupA_setAssoc_ne _ _ _ _ hkk]
        exact hx

/-- C5: a key that no contributing mod changes relative to the baseline is
emitted with the baseline's value: in merge.py's engine every baseline
position carrying the key reproduces the baseline line, and in
modmanager.py's `merge_scripts` the map entry for the key (whose values
form the output) still holds the baseline's line afterwards. -/
theorem claim_C5_unchanged_keys :
    (∀ (resolver : Merge.Resolver) (original : Merge.ScriptFile)
       (mods : List Merge.ScriptFile) (k : Key),
       (∀ mm' ∈ Merge.modMapsOf mods, lookupA mm'.map k = none
          ∨ lookupA mm'.map k = lookupA (Merge.buildLineMap original.content) k) →
       ∀ i li, (contentLines original.content).get? i = some li →
         Merge.try_parse_key li = some k →
         (Merge.mergeOutputs resolver original mods).get? i = some li)
    ∧ (∀ (ask : ModManager.AskUser) (original : ModManager.ScriptFile)
         (mods : List ModManager.ScriptFile) (k : Key),
       (∀ mod ∈ mods, ∀ li ∈ contentLines mod.content,
          ModManager.try_parse_key_local li = some k →
          lookupA (buildLineMapWith ModManager.try_parse_key_local original.content) k = some li) →
       lookupA (ModManager.merge_scripts_run ask original mods).original_map k
         = lookupA (buildLineMapWith ModManager.try_parse_key_local original.content) k) := by
  constructor
  · intro resolver original mods k hm i li hi hkey
    have hAC := ac_nil_of_unchanged (Merge.buildLineMap original.content)
      (Merge.modMapsOf mods) k hm
    exact (c5_lines resolver (Merge.buildLineMap original.content) (Merge.modMapsOf mods)
      k hAC (contentLines original.content) Merge.initState rfl).2 i li hi hkey
  · intro ask original mods k hg
    exact c5_gui_inv ask original mods k hg

theorem claim_C5_witness :
    ((Merge.mergeOutputs resolverFirst c4orig [c5modA, c5modB]).get? 0
        = some (strL "Set(\"k\") 0"))
    ∧ lookupA (ModManager.merge_scripts_run askKeepOriginal c5gorig [c5gmod]).original_map
        (strL "a_1")
      = lookupA (buildLineMapWith ModManager.try_parse_key_local c5gorig.content) (strL "a_1") := by
  constructor
  · exact claim_C5_unchanged_keys.1 resolverFirst c4orig [c5modA, c5modB] (strL "Set_k")
      (by decide) 0 (strL "Set(\"k\") 0") (by decide) (by decide)
  · exact claim_C5_unchanged_keys.2 askKeepOriginal c5gorig [c5gmod] (strL "a_1") (by decide)

theorem c3_cli_step (resolver : Merge.Resolver) (om : List (Key × Line))
    (mm : List Merge.ModMap) (st : Merge.MState) (p : Source) (l : Line)
    (hp : st.preferred_mod_source = some p) :
    (Merge.processLine resolver om mm st l).1.preferred_mod_source = some p
    ∧ (Merge.processLine resolver om mm st l).1.prompts = st.prompts
    ∧ (∀ k, Merge.try_parse_key l = some k → lookupA st.resolutions k = none →
        2 ≤ (Merge.distinctChanges (Merge.actualChanges om mm k)).length →
        (Merge.processLine resolver om mm st l).2
          = Merge.pickPreferred p (Merge.distinctChanges (Merge.actualChanges om mm k))) := by
  cases hk : Merge.try_parse_key l with
  | none =>
    have heq : Merge.processLine resolver om mm st l = (st, l) := by
      simp only [Merge.processLine, hk]
    rw [heq]
    exact ⟨hp, rfl, fun k hkeq => absurd hkeq (by simp [hk])⟩
  | some k' =>
    cases hres : lookupA st.resolutions k' with
    | some r =>
      have heq : Merge.processLine resolver om mm st l = (st, r) := by
        simp only [Merge.processLine, hk, hres]
      rw [heq]
      refine ⟨hp, rfl, fun k hkeq hnone _ => ?_⟩
      rw [Option.some.inj hkeq] at hres
      rw [hnone] at hres
      exact absurd hres (by simp)
    | none =>
      by_cases h0 : (Merge.actualChanges om mm k').length = 0
      · have heq : Merge.processLine resolver om mm st l = (st, l) := by
          simp only [Merge.processLine, hk, hres]
          rw [if_pos h0]
        rw [heq]
        refine ⟨hp, rfl, fun k hkeq hnone hconf => ?_⟩
        rw [← Option.some.inj hkeq] at hconf
        rw [List.length_eq_zero.mp h0] at hconf
        exact absurd hconf (by simp [Merge.distinctChanges])
      · by_cases h1 : (Merge.actualChanges om mm k').length = 1
        · obtain ⟨c, hc⟩ := List.length_eq_one.mp h1
          have heq : Merge.processLine resolver om mm st l
              = (Merge.MState.mk (st.resolutions
                  ++ [(k', ((Merge.actualChanges om mm k').headD ([], [])).1)])
                  st.preferred_mod_source st.auto_resolved_count st.prompts,
                 ((Merge.actualChanges om mm k').headD ([], [])).1) := by
            simp only [Merge.processLine, hk, hres, if_neg h0]
            rw [if_pos h1]
          rw [heq]
          refine ⟨hp, rfl, fun k hkeq hnone hconf => ?_⟩
          rw [← Option.some.inj hkeq] at hconf
          rw [hc] at hconf
          have : Merge.distinctChanges [c] = [(c.1, [c.2])] := rfl
          rw [this] at hconf
          exact absurd hconf (by simp)
        · by_cases hd1 : (Merge.distinctChanges (Merge.actualChanges om mm k')).length = 1
          · have heq : Merge.processLine resolver om mm st l
                = (Merge.MState.mk (st.resolutions
                    ++ [(k', ((Merge.distinctChanges (Merge.actualChanges om mm k')).headD
                        ([], [])).1)])
                    st.preferred_mod_source st.auto_resolved_count st.prompts,
                   ((Merge.distinctChanges (Merge.actualChanges om mm k')).headD ([], [])).1) := by
              simp only [Merge.processLine, hk, hres, if_neg h0, if_neg h1]
              rw [if_pos hd1]
            rw [heq]
            refine ⟨hp, rfl, fun k hkeq hnone hconf => ?_⟩
            rw [← Option.some.inj hkeq] at hconf
            omega
          · have heq : Merge.processLine resolver om mm st l
                = (Merge.MState.mk (st.resolutions
                    ++ [(k', Merge.pickPreferred p
                        (Merge.distinctChanges (Merge.actualChanges om mm k')))])
                    (some p) (st.auto_resolved_count + 1) st.prompts,
                   Merge.pickPreferred p
                     (Merge.distinctChanges (Merge.actualChanges om mm k'))) := by
              simp only [Merge.processLine, hk, hres, if_neg h0, if_neg h1, if_neg hd1, hp]
            rw [heq]
            refine ⟨rfl, rfl, fun k hkeq _ _ => ?_⟩
            rw [← Option.some.inj hkeq]

theorem c3_gui_no_prompt (ask : ModManager.AskUser) (osrc msrc : Source)
    (st : ModManager.MergeState) (l : Line)
    (hp : st.preferred_source_for_file = some osrc
        ∨ st.preferred_source_for_file = some msrc) :
    (ModManager.processModLine ask osrc msrc st l).prompts = st.prompts := by
  cases hk : ModManager.try_parse_key_local l with
  | none => simp [ModManager.processModLine, hk]
  | some k =>
    simp only [ModManager.processModLine, hk]
    cases hcur : lookupA st.original_map k with
    | some cur =>
      simp only
      by_cases hne : cur ≠ l
      · rw [if_pos hne]
        by_cases hos : st.preferred_source_for_file = some osrc
        · rw [if_pos hos]
        · rw [if_neg hos]
          have hms : st.preferred_source_for_file = some msrc := by
            rcases hp with h | h
            · exact absurd h hos
            · exact h
          rw [if_pos hms]
      · rw [if_neg hne]
    | none => simp only

/-- C3 (amended): in merge.py's engine, once the sticky preferred source is
set it persists across every later line of the file, no further prompt is
ever issued, and each later true conflict resolves to the first distinct
candidate whose source set contains the preferred source (else the first
distinct candidate); moreover the per-file merge of any group in a run is
computed from the fixed initial state, independent of the preceding groups,
so a preference never carries into another file.  In modmanager.py's
`merge_scripts` the sticky preference only suppresses the prompt when it
names the baseline's source or the currently conflicting mod's source. -/
theorem claim_C3_sticky_preference :
    (∀ (resolver : Merge.Resolver) (om : List (Key × Line)) (mm : List Merge.ModMap)
       (st : Merge.MState) (p : Source) (l : Line),
       st.preferred_mod_source = some p →
       (Merge.processLine resolver om mm st l).1.preferred_mod_source = some p
       ∧ (Merge.processLine resolver om mm st l).1.prompts = st.prompts
       ∧ (∀ k, Merge.try_parse_key l = some k → lookupA st.resolutions k = none →
           2 ≤ (Merge.distinctChanges (Merge.actualChanges om mm k)).length →
           (Merge.processLine resolver om mm st l).2
             = Merge.pickPreferred p (Merge.distinctChanges (Merge.actualChanges om mm k))))
    ∧ (∀ (resolver : Merge.Resolver) (originals : List Merge.ScriptFile)
         (gs : List (Line × List Merge.ScriptFile)) (g : Line × List Merge.ScriptFile),
       (Merge.cliMergeRun resolver originals (gs ++ [g])).getLast?
         = some (g.1, Merge.cliFinalContent resolver originals g.1 g.2))
    ∧ (∀ (ask : ModManager.AskUser) (osrc msrc : Source) (st : ModManager.MergeState)
         (l : Line),
       (st.preferred_source_for_file = some osrc
        ∨ st.preferred_source_for_file = some msrc) →
       (ModManager.processModLine ask osrc msrc st l).prompts = st.prompts) := by
  refine ⟨c3_cli_step, ?_, c3_gui_no_prompt⟩
  intro resolver originals gs g
  simp [Merge.cliMergeRun]

/-- C3 counterexample: in the GUI variant, a sticky preference for mod A is
set while resolving the first conflict, yet the very next true conflict
(from mod B, same file) prompts the resolver again — the prompt trail for
key `a_1` has two entries. -/
theorem claim_C3_counterexample :
    (ModManager.merge_scripts_run askPickModSticky c3orig [c3modA]).preferred_source_for_file
      = some (strL "A.pak")
    ∧ (ModManager.merge_scripts_run askPickModSticky c3orig [c3modA]).prompts = [strL "a_1"]
    ∧ (ModManager.merge_scripts_run askPickModSticky c3orig [c3modA, c3modB]).prompts
      = [strL "a_1", strL "a_1"] := by
  refine ⟨by decide, by decide, by decide⟩

theorem claim_C3_witness :
    (Merge.processLine resolverFirst [] c3mm c3st (strL "Set(\"k\") 0")).1.preferred_mod_source
      = some (strL "m2.pak")
    ∧ (Merge.processLine resolverFirst [] c3mm c3st (strL "Set(\"k\") 0")).1.prompts = []
    ∧ (Merge.processLine resolverFirst [] c3mm c3st (strL "Set(\"k\") 0")).2 = strL "two" := by
  have h := claim_C3_sticky_preference.1 resolverFirst [] c3mm c3st (strL "m2.pak")
    (strL "Set(\"k\") 0") (by decide)
  refine ⟨h.1, h.2.1.trans (by decide), ?_⟩
  have h3 := h.2.2 (strL "Set_k") (by decide) (by decide) (by decide)
  rw [h3]
  decide

theorem processLine_no_mods (resolver : Merge.Resolver) (om : List (Key × Line))
    (st : Merge.MState) (l : Line) (h : st.resolutions = []) :
    Merge.processLine resolver om [] st l = (st, l) := by
  cases hk : Merge.try_parse_key l with
  | none => simp [Merge.processLine, hk]
  | some k =>
    have hl : lookupA st.resolutions k = none := by rw [h]; rfl
    have hlen : (Merge.actualChanges om [] k).length = 0 := rfl
    simp only [Merge.processLine, hk, hl]
    rw [if_pos hlen]

theorem mergeLines_no_mods (resolver : Merge.Resolver) (om : List (Key × Line)) :
    ∀ (ls : List Line) (st : Merge.MState), st.resolutions = [] →
      Merge.mergeLines resolver om [] st ls = (st, ls) := by
  intro ls
  induction ls with
  | nil => intro st _; rfl
  | cons l t ih =>
    intro st h
    simp only [Merge.mergeLines]
    rw [processLine_no_mods resolver om st l h]
    simp only
    rw [ih st h]

/-- C6 (amended): merging any content as the baseline against an empty mod
list returns the content with each CRLF pair normalized to a bare LF; it is
therefore unchanged exactly when the content contains no CRLF, and an
earlier merge output can itself still contain a CRLF (a line ending in a
stray CR followed by the join's LF), so even re-merging merged output can
change it. -/
theorem claim_C6_empty_merge_normalizes (resolver : Merge.Resolver)
    (original : Merge.ScriptFile) :
    Merge.generate_merged_file_content resolver original [] = replaceCRLF original.content := by
  unfold Merge.generate_merged_file_content Merge.mergeFileRun
  have hmm : Merge.modMapsOf [] = [] := rfl
  rw [hmm, mergeLines_no_mods resolver (Merge.buildLineMap original.content)
    (contentLines original.content) Merge.initState rfl]
  exact joinNL_splitNL (replaceCRLF original.content)

/-- C6 counterexample: `merge("a\r\r\nb", []) = "a\r\nb"` (already not the
input), and re-merging that output gives `"a\nb"` — so `merge(C, []) = C`
fails, in particular when `C` is itself the output of a previous merge. -/
theorem claim_C6_counterexample :
    Merge.generate_merged_file_content resolverFirst c6orig1 [] = strL "a\r\nb"
    ∧ Merge.generate_merged_file_content resolverFirst c6orig2 [] = strL "a\nb"
    ∧ strL "a\nb" ≠ strL "a\r\nb"
    ∧ strL "a\r\nb" ≠ strL "a\r\r\nb" := by
  refine ⟨by decide, by decide, by decide, by decide⟩

/-- C2 (amended): in merge.py a path contributed by exactly one mod is
emitted verbatim, with no merge against the baseline; in modmanager.py that
holds only when the baseline has no file at the path (the sole contributor,
being the last, is copied verbatim) — a baseline path is handed to
`merge_scripts` even with a single contributor. -/
theorem claim_C2_single_mod_verbatim :
    (∀ (resolver : Merge.Resolver) (originals : List Merge.ScriptFile) (path : Line)
       (group : List Merge.ScriptFile), group.length = 1 →
       (Merge.cliFinalContent resolver originals path group).1
         = (group.headD default).content)
    ∧ (∀ (ask : ModManager.AskUser) (origs : List (Line × ModManager.ScriptFile))
         (rel : Line) (m : ModManager.ScriptFile), lookupA origs rel = none →
       (ModManager.runMergeFileContent ask origs rel [m]).1 = m.content) := by
  constructor
  · intro resolver originals path group h
    simp [Merge.cliFinalContent, h]
  · intro ask origs rel m h
    simp [ModManager.runMergeFileContent, h]

/-- C2 counterexample: in the GUI variant a path touched by exactly one mod
but present in the baseline is merged with the baseline: the output keeps
the baseline's `a 1` line and appends the mod's `a 2` line, so it is not
byte-for-byte the mod's content. -/
theorem claim_C2_counterexample :
    (ModManager.runMergeFileContent askKeepOriginal (ModManager.buildOriginals [c2orig])
       (strL "f.scr") [c2mod]).1 = strL "a 1\na 2"
    ∧ strL "a 1\na 2" ≠ c2mod.content := by
  refine ⟨by decide, by decide⟩

theorem claim_C2_witness :
    (Merge.cliFinalContent resolverFirst [] (strL "q.scr") [c2cliMod]).1 = c2cliMod.content
    ∧ (ModManager.runMergeFileContent askKeepOriginal [] (strL "x.scr") [c2mod]).1
        = c2mod.content := by
  exact ⟨claim_C2_single_mod_verbatim.1 resolverFirst [] (strL "q.scr") [c2cliMod] (by decide),
    claim_C2_single_mod_verbatim.2 askKeepOriginal [] (strL "x.scr") c2mod (by decide)⟩

/-- C10: a canonical path contributed by two or more mods with no baseline
counterpart is taken from exactly one contributor with no merge and no
conflict: merge.py uses the first-listed contributor, modmanager.py the
last-listed one, and neither branch ever invokes a resolver. -/
theorem claim_C10_no_baseline_single_source :
    (∀ (resolver : Merge.Resolver) (originals : List Merge.ScriptFile) (path : Line)
       (group : List Merge.ScriptFile), 2 ≤ group.length →
       (∀ f ∈ originals, lowerL f.full_path_in_pak ≠ lowerL path) →
       Merge.cliFinalContent resolver originals path group
         = ((group.headD default).content, []))
    ∧ (∀ (ask : ModManager.AskUser) (origs : List (Line × ModManager.ScriptFile))
         (rel : Line) (mods : List ModManager.ScriptFile), 2 ≤ mods.length →
       lookupA origs rel = none →
       ModManager.runMergeFileContent ask origs rel mods
         = ((mods.getLastD default).content, [])) := by
  constructor
  · intro resolver originals path group hlen hno
    have hne : ¬ group.length = 1 := by omega
    have hfind : originals.find?
        (fun f => decide (lowerL f.full_path_in_pak = lowerL path)) = none := by
      rw [List.find?_eq_none]
      intro f hf
      simp [hno f hf]
    simp [Merge.cliFinalContent, hne, hfind]
  · intro ask origs rel mods hlen h
    simp [ModManager.runMergeFileContent, h]

theorem claim_C10_witness :
    Merge.cliFinalContent resolverFirst [] (strL "p.scr") [c10modA, c10modC]
      = (strL "A", [])
    ∧ ModManager.runMergeFileContent askKeepOriginal [] (strL "p.scr") [c10gmodA, c10gmodB]
      = (strL "GB", []) := by
  have h1 := claim_C10_no_baseline_single_source.1 resolverFirst [] (strL "p.scr")
    [c10modA, c10modC] (by decide) (by simp)
  have h2 := claim_C10_no_baseline_single_source.2 askKeepOriginal [] (strL "p.scr")
    [c10gmodA, c10gmodB] (by decide) (by decide)
  exact ⟨h1.trans (by decide), h2.trans (by decide)⟩

theorem nextPakNum_fold_bounds :
    ∀ (nums : List Nat) (acc : Nat),
      acc ≤ nums.foldl (fun next num => if next ≤ num then num + 1 else next) acc
      ∧ ∀ m ∈ nums, m < nums.foldl (fun next num => if next ≤ num then num + 1 else next) acc := by
  intro nums
  induction nums with
  | nil => intro acc; exact ⟨le_refl _, by simp⟩
  | cons n t ih =>
    intro acc
    simp only [List.foldl_cons]
    have h1 : acc ≤ if acc ≤ n then n + 1 else acc := by split <;> omega
    have h2 : n < if acc ≤ n then n + 1 else acc := by split <;> omega
    obtain ⟨ha, hb⟩ := ih (if acc ≤ n then n + 1 else acc)
    refine ⟨le_trans h1 ha, ?_⟩
    intro m hm
    rcases List.mem_cons.mp hm with h | h
    · subst h; exact lt_of_lt_of_le h2 ha
    · exact hb m h

theorem nextPakNum_spec (nums : List Nat) :
    3 ≤ Merge.nextPakNum nums ∧ ∀ m ∈ nums, m < Merge.nextPakNum nums := by
  obtain ⟨ha, hb⟩ := nextPakNum_fold_bounds nums 0
  have hdef : Merge.nextPakNum nums =
      if List.foldl (fun next num => if next ≤ num then num + 1 else next) 0 nums < 3 then 3
      else List.foldl (fun next num => if next ≤ num then num + 1 else next) 0 nums := rfl
  rw [hdef]
  split
  · refine ⟨le_refl 3, ?_⟩
    intro m hm
    have := hb m hm
    omega
  · rename_i h
    refine ⟨by omega, hb⟩

theorem nextFreeAux_spec (taken : List Nat) :
    ∀ (fuel i : Nat), fuel + i = taken.length + 1 → (∀ j, j < i → j ∈ taken) →
      ModManager.nextFreeAux taken fuel i ∉ taken
      ∧ ∀ j < ModManager.nextFreeAux taken fuel i, j ∈ taken := by
  intro fuel
  induction fuel with
  | zero =>
    intro i hfi hj
    exfalso
    have hsub : Finset.range i ⊆ taken.toFinset := by
      intro j hjr
      exact List.mem_toFinset.mpr (hj j (Finset.mem_range.mp hjr))
    have hcard := Finset.card_le_card hsub
    rw [Finset.card_range] at hcard
    have hlen := List.toFinset_card_le taken
    omega
  | succ f ih =>
    intro i hfi hj
    simp only [ModManager.nextFreeAux]
    by_cases hmem : i ∈ taken
    · rw [if_pos hmem]
      refine ih (i + 1) (by omega) ?_
      intro j hji
      rcases Nat.lt_succ_iff_lt_or_eq.mp hji with h | h
      · exact hj j h
      · subst h; exact hmem
    · rw [if_neg hmem]
      exact ⟨hmem, hj⟩

theorem next_data_name_spec (taken : List Nat) :
    ModManager.next_data_name taken ∉ taken
    ∧ ∀ j < ModManager.next_data_name taken, j ∈ taken := by
  exact nextFreeAux_spec taken (taken.length + 1) 0 (by omega)
    (fun j h => absurd h (by omega))

/-- C7 (amended): merge.py names the merged output with one more than the
highest existing data number, floored at 3 — a number that is at least 3
and strictly above every existing number (hence fresh and never shadowing
an existing package), but not in general the lowest unused number at or
above the floor; modmanager.py's `next_data_name` picks the lowest number
whose file does not exist, starting from 0 with no reserved floor. -/
theorem claim_C7_naming :
    (∀ nums : List Nat, 3 ≤ Merge.nextPakNum nums ∧ ∀ m ∈ nums, m < Merge.nextPakNum nums)
    ∧ (∀ taken : List Nat, ModManager.next_data_name taken ∉ taken
        ∧ ∀ j < ModManager.next_data_name taken, j ∈ taken) :=
  ⟨nextPakNum_spec, next_data_name_spec⟩

/-- C7 counterexample: with existing numbers 0 and 5, the lowest unused
number at or above the reserved floor 3 is 3 itself, but merge.py produces
6; and with only number 0 taken, modmanager.py produces 1, which is below
the reserved floor 3. -/
theorem claim_C7_counterexample :
    Merge.nextPakNum [0, 5] = 6 ∧ (3 ∉ [0, 5]) ∧ 3 < 6
    ∧ ModManager.next_data_name [0] = 1 ∧ 1 < 3 := by
  refine ⟨by decide, by decide, by decide, by decide, by decide⟩

theorem claim_C7_witness :
    3 ≤ Merge.nextPakNum [0, 5] ∧ 5 < Merge.nextPakNum [0, 5]
    ∧ ModManager.next_data_name [0, 1, 2] ∉ [0, 1, 2] := by
  exact ⟨(claim_C7_naming.1 [0, 5]).1, (claim_C7_naming.1 [0, 5]).2 5 (by decide),
    (claim_C7_naming.2 [0, 1, 2]).1⟩

/-- C1 (code evaluated at the failing input): a mod whose single script sits
at `scripts/a.scr` while the canonical path is `data\scripts\a.scr` — the
paths differ case-insensitively, the basename is known, and there are no
unknown files, so the reader's local `needs_fixing_flag` ends up true; yet
`fix_mod_structures` uses the mod unchanged, because Python passed the
boolean by value and the caller's `needs_fixing` stays false, leaving the
corrected-copy branch dead. -/
theorem claim_C1_structure_fix_flag_lost :
    Merge.fix_one_mod c1structure c1entries true = Merge.ModOutcome.usedUnchanged
    ∧ (Merge.read_scripts_from_single_pak_for_fixing c1entries false
        c1structure).needs_fixing_flag = true
    ∧ (Merge.read_scripts_from_single_pak_for_fixing c1entries false
        c1structure).unknown_files = [] := by
  refine ⟨by decide, by decide, by decide⟩

/-- C8 counterexample: neither packaging sequence follows the "write the
output entirely to scratch, promote it by a rename into the source
directory" discipline: merge.py creates the archive directly in the source
directory, and modmanager.py transfers it with a copy, not a rename. -/
theorem claim_C8_counterexample :
    promotesByRenameFromScratch cliPackagingOps = false
    ∧ promotesByRenameFromScratch guiPackagingOps = false := by
  refine ⟨by decide, by decide⟩

/-- C8 (amended): merge.py stages the extracted files in scratch but creates
the final container directly in the source directory and renames it only
within that directory (.zip to .pak); modmanager.py creates the container
in scratch and then copies it into the source directory; neither sequence
contains a rename into the source directory, so an interrupted archive
creation (CLI) or copy (GUI) can leave a partial file visible there. -/
theorem claim_C8_packaging_ops :
    FSOp.writeTree Loc.scratch ∈ cliPackagingOps
    ∧ FSOp.createArchive Loc.sourceDir ∈ cliPackagingOps
    ∧ FSOp.renameWithin Loc.sourceDir ∈ cliPackagingOps
    ∧ FSOp.createArchive Loc.scratch ∈ guiPackagingOps
    ∧ FSOp.copyAcross Loc.scratch Loc.sourceDir ∈ guiPackagingOps
    ∧ cliPackagingOps.all (fun op => !(isRenameIntoSource op)) = true
    ∧ guiPackagingOps.all (fun op => !(isRenameIntoSource op)) = true := by
  refine ⟨by decide, by decide, by decide, by decide, by decide, by decide, by decide⟩

/-- C9 (code evaluated at the failing input): for the invalid-UTF-8 byte
0xFF, merge.py's chain decodes the full original byte via latin1 (code
point 0xFF), but modmanager.py's loader re-reads the already exhausted
stream on fallback and decodes empty bytes, returning empty content — not a
decode of the original byte sequence, whose lossy UTF-8 decode would be
U+FFFD. -/
theorem claim_C9_decode_fallback :
    ModManager.read_scr_entry_content (ModManager.ByteStream.mk [0xFF] 0) = []
    ∧ Merge.read_scr_content [0xFF] = [Char.ofNat 0xFF]
    ∧ lossyUtf8Decode [0xFF] = [Char.ofNat 0xFFFD]
    ∧ ([] : List Char) ≠ [Char.ofNat 0xFF]
    ∧ ([] : List Char) ≠ [Char.ofNat 0xFFFD] := by
  have h0 : lossyUtf8Decode [] = [] := by
    unfold lossyUtf8Decode
    rfl
  have h255 : utf8Decode? [255] = none := by decide
  refine ⟨?_, by decide, ?_, by decide, by decide⟩
  · simp [ModManager.read_scr_entry_content, ModManager.readAll, h255, h0]
  · unfold lossyUtf8Decode
    norm_num [h0, replacementChar]
